import Mathlib

/-!
Verification of the embedding pipeline manager (`src/embeddings.ts`) of the
`Timi16/embedding-model` repository: instruction prefixing, single-flight lazy
model initialization, output-shape normalization (`toMatrix`), dimension
memoization (`getModelInfo`), and the float32/base64 vector codec.

Modelling choices, faithful to the TypeScript source:
* The event loop is single threaded; state is mutated only in synchronous
  sections between `await` suspension points.  We model each such atomic
  section as one step of a state-passing function, and "interleavings" as
  arbitrary sequences of operations.
* Numeric vector entries are modelled as `Int` (their identity is irrelevant
  to every shape claim; the float32 cast is handled separately in the codec
  section at the bit-pattern level).
* The raw output of the external inference engine is modelled as a sum type
  `RawOutput` mirroring the dynamic type probes of `toMatrix`
  (tensor-with-dims, single `Float32Array`, array of per-item buffers, and
  `other` for everything that falls through to the
  "Unexpected embedding output shape" throw).
-/

/-- `Mode` from `embeddings.ts` line 11: `"query" | "passage"`. -/
inductive Mode where
  | query
  | passage
deriving DecidableEq, Repr

/-- `Instruction` from `embeddings.ts` line 12: `"none" | "e5"`. -/
inductive Instruction where
  | none
  | e5
deriving DecidableEq, Repr

/-- One element of a JS-array inference output (case 3 of `toMatrix`):
a `Float32Array`, an object wrapping a `Float32Array` in its `.data` field,
or a plain `number[]`. -/
inductive OutItem where
  | f32 (data : List Int)
  | objData (data : List Int)
  | nums (data : List Int)
deriving DecidableEq, Repr

/-- The raw output of the external inference call, as discriminated by the
dynamic type probes in `toMatrix`:
* `tensor dims data` — an object with a truthy `.data` buffer and an
  `Array.isArray` shape descriptor `.dims` (case 1);
* `floatArr data` — a bare `Float32Array` (case 2);
* `arr items` — a JS array of per-item vectors (case 3);
* `other` — any value matching none of the probes (the throw path). -/
inductive RawOutput where
  | tensor (dims : List Nat) (data : List Int)
  | floatArr (data : List Int)
  | arr (items : List OutItem)
  | other
deriving DecidableEq, Repr

/-- JavaScript `Array.prototype.slice(start, stop)` on a list: the elements
with indices in `[start, stop)`, clamped to the array bounds. -/
def jsSlice (l : List Int) (start stop : Nat) : List Int :=
  (l.take stop).drop start

/-- `withPrefix` from `embeddings.ts` lines 17–23: under the `e5` instruction
policy prepend `"query: "` or `"passage: "` according to the mode, otherwise
return the texts unchanged. -/
def withPrefix (texts : List String) (mode : Mode) (instruction : Instruction) :
    List String :=
  match instruction with
  | .e5 =>
      let prefixStr := match mode with
        | .query => "query: "
        | .passage => "passage: "
      texts.map (fun t => prefixStr ++ t)
  | .none => texts

/-- `Array.from(v?.data ?? v)` / the per-item row extraction of `toMatrix`
case 3: every admissible item denotes its underlying numeric list
(`Number(x)` on a JS number is the identity). -/
def itemToRow : OutItem → List Int
  | .f32 data => data
  | .objData data => data
  | .nums data => data

/-- `toMatrix` from `src/src/embeddings.ts` lines 40–79.  Takes the raw
output and the current memoized `modelDim`; returns the normalized matrix
together with the updated `modelDim` (the function mutates the module-level
`modelDim` variable), or the `"Unexpected embedding output shape"` error.

Case 1 mirrors `n = Math.max(1, dims[0] ?? 1)` and
`d = dims.length > 1 ? (dims[dims.length - 1] ?? data.length) : data.length`,
with rows `flat.slice(i*d, (i+1)*d)`. -/
def toMatrix (output : RawOutput) (modelDim : Option Nat) :
    Except String (List (List Int) × Option Nat) :=
  match output with
  | .tensor dims data =>
      let n := max 1 (dims.headD 1)
      let d := if dims.length > 1 then dims.getLastD data.length else data.length
      let rows := (List.range n).map (fun i => jsSlice data (i * d) ((i + 1) * d))
      .ok (rows, some d)
  | .floatArr data =>
      .ok ([data], some data.length)
  | .arr items =>
      let rows := items.map itemToRow
      .ok (rows, match rows.head? with
        | some r => some r.length
        | Option.none => modelDim)
  | .other => .error "Unexpected embedding output shape"

/-- `toMatrix` from `src/unnamed/part_000` lines 40–67 (the duplicated copy).
Case 1 mirrors
`[n, d] = dims.length === 2 ? dims : [1, dims.at(-1) ?? data.length]`,
with rows `arr.slice(i*d, (i+1)*d)`; cases 2 and 3 mirror the
`Float32Array` and `Array.from(v?.data ?? v)` branches. -/
def toMatrixAlt (output : RawOutput) (modelDim : Option Nat) :
    Except String (List (List Int) × Option Nat) :=
  match output with
  | .tensor dims data =>
      let nd : Nat × Nat :=
        if dims.length = 2 then (dims.headD 0, dims.getLastD 0)
        else (1, dims.getLastD data.length)
      let rows := (List.range nd.1).map
        (fun i => jsSlice data (i * nd.2) ((i + 1) * nd.2))
      .ok (rows, some nd.2)
  | .floatArr data =>
      .ok ([data], some data.length)
  | .arr items =>
      let rows := items.map itemToRow
      .ok (rows, match rows.head? with
        | some r => some r.length
        | Option.none => modelDim)
  | .other => .error "Unexpected embedding output shape"

/-- The default model identity from `embeddings.ts` line 9
(`process.env.MODEL_ID ?? "Xenova/bge-small-en-v1.5"`, modelled with the
environment variable unset). -/
def MODEL_ID : String := "Xenova/bge-small-en-v1.5"

/-- The process-wide mutable state of the pipeline manager
(`embeddings.ts` lines 14–15), together with instrumentation fields that
model the spec's call-count spies:
* `extractorPromise` — `none` when no initialization has been started,
  `some p` when the promise with identity `p` is installed;
* `modelDim` — the memoized embedding dimension;
* `loadCount` — number of `pipeline(...)` load invocations started so far
  (also used as the identity of the freshly created promise);
* `promiseLog` — the promise identity obtained by each `getExtractor`
  call, in call order;
* `inferLog` — the argument text batch of each inference
  (`extractor(prefixed, ...)`) invocation, in call order. -/
structure EmbState where
  extractorPromise : Option Nat := Option.none
  modelDim : Option Nat := Option.none
  loadCount : Nat := 0
  promiseLog : List Nat := []
  inferLog : List (List String) := []
deriving DecidableEq, Repr

/-- The initial process state: nothing loaded, dimension unknown. -/
def initState : EmbState := {}

/-- `getExtractor` from `embeddings.ts` lines 29–34.  The body
`if (!extractorPromise) { extractorPromise = pipeline(...) } return
extractorPromise` contains no `await` between the check and the
installation, so on the single-threaded event loop it executes atomically;
we model it as one step returning the obtained promise identity.  A fresh
promise is given the current `loadCount` as its identity. -/
def getExtractor (s : EmbState) : Nat × EmbState :=
  match s.extractorPromise with
  | some p => (p, { s with promiseLog := s.promiseLog ++ [p] })
  | Option.none =>
      (s.loadCount,
        { s with
          extractorPromise := some s.loadCount
          loadCount := s.loadCount + 1
          promiseLog := s.promiseLog ++ [s.loadCount] })

/-- `embedBatch` from `embeddings.ts` lines 82–97, parameterized by the
behavior of the external collaborators:
* `loadOutcome p` — whether the model-load promise `p` resolves
  successfully (`false` models a rejected `pipeline(...)` load);
* `infer texts` — the raw output the inference engine returns for the
  prefixed batch `texts` (the `extractor(prefixed, {pooling, normalize})`
  call).

Mirrors the source: empty input returns `[]` before any collaborator is
touched; otherwise obtain the extractor (awaiting a rejected load promise
propagates the failure), prefix, infer, and normalize via `toMatrix`. -/
def embedBatch (loadOutcome : Nat → Bool) (infer : List String → RawOutput)
    (s : EmbState) (texts : List String) (mode : Mode)
    (instruction : Instruction) :
    Except String (List (List Int)) × EmbState :=
  if texts.isEmpty then (.ok [], s)
  else
    let pr := getExtractor s
    if loadOutcome pr.1 then
      let prefixed := withPrefix texts mode instruction
      let s2 := { pr.2 with inferLog := pr.2.inferLog ++ [prefixed] }
      match toMatrix (infer prefixed) s2.modelDim with
      | .ok (rows, dim') => (.ok rows, { s2 with modelDim := dim' })
      | .error e => (.error e, s2)
    else
      (.error "InitializationFailure", pr.2)

/-- `getModelInfo` from `embeddings.ts` lines 99–105: when the dimension is
still unknown, run the single-text warmup
`embedBatch(["warmup"], { mode: "passage", instruction: "e5" })`, then
return `{ model: MODEL_ID, dim: modelDim ?? null }`.  A failure of the
warmup propagates (the `await` rethrows). -/
def getModelInfo (loadOutcome : Nat → Bool)
    (infer : List String → RawOutput) (s : EmbState) :
    Except String (String × Option Nat) × EmbState :=
  match s.modelDim with
  | some d => (.ok (MODEL_ID, some d), s)
  | Option.none =>
      match embedBatch loadOutcome infer s ["warmup"] .passage .e5 with
      | (.ok _, s1) => (.ok (MODEL_ID, s1.modelDim), s1)
      | (.error e, s1) => (.error e, s1)

/-- One externally triggered operation on the pipeline manager: an
`embedBatch` request or a `getModelInfo` request. -/
inductive Op where
  | embed (texts : List String) (mode : Mode) (instruction : Instruction)
  | info
deriving DecidableEq, Repr

/-- Execute one operation, keeping only the state (results are read off
the instrumentation logs). -/
def stepOp (loadOutcome : Nat → Bool) (infer : List String → RawOutput)
    (s : EmbState) : Op → EmbState
  | .embed texts mode instruction =>
      (embedBatch loadOutcome infer s texts mode instruction).2
  | .info => (getModelInfo loadOutcome infer s).2

/-- Run a sequence of operations from a given state.  Because every state
mutation of the source occurs in an atomic synchronous section (see
`getExtractor`), an arbitrary interleaving of N concurrent callers is
exactly an arbitrary sequence of these atomic steps. -/
def runOps (loadOutcome : Nat → Bool) (infer : List String → RawOutput)
    (s : EmbState) (ops : List Op) : EmbState :=
  ops.foldl (stepOp loadOutcome infer) s

/-- Raw outputs on which the warmup necessarily resolves the dimension:
every tensor or `Float32Array` output, and every non-empty array output.
An empty array output (`rows[0]?.length ?? modelDim`) leaves the memoized
dimension untouched. -/
def producesDim : RawOutput → Bool
  | .tensor _ _ => true
  | .floatArr _ => true
  | .arr items => !items.isEmpty
  | .other => false

/-- The raw outputs on which the two `toMatrix` copies behave identically:
every non-tensor shape, tensors with an empty shape descriptor, and rank-2
tensors with a positive leading dimension.  (Rank-1 and rank-≥3
descriptors are handled differently by the two copies.) -/
def agreeDomain : RawOutput → Bool
  | .tensor dims _ => dims.length = 0 || (dims.length = 2 && 1 ≤ dims.headD 0)
  | _ => true

/-- The single-flight invariant on reachable states: at most one load has
ever been started, every `getExtractor` caller so far obtained promise `0`,
no load has run while no promise is installed, and an installed promise is
promise `0` with exactly one load started. -/
def SFInv (s : EmbState) : Prop :=
  s.loadCount ≤ 1 ∧ (∀ p ∈ s.promiseLog, p = 0) ∧
    (s.extractorPromise = Option.none → s.loadCount = 0) ∧
    (∀ q, s.extractorPromise = some q → q = 0 ∧ s.loadCount = 1)

/-- The standard base64 alphabet, indexed 0–63. -/
def base64Alphabet : String :=
  "ABCDEFGHIJKLMNOPQRSTUVWXYZabcdefghijklmnopqrstuvwxyz0123456789+/"

/-- The base64 digit for a sextet value. -/
def sextetChar (n : Nat) : Char :=
  base64Alphabet.toList.getD n 'A'

/-- Index of a character in a list (`none` when absent). -/
def charIndex : List Char → Char → Option Nat
  | [], _ => Option.none
  | c :: cs, x => if x = c then some 0 else (charIndex cs x).map (· + 1)

/-- The sextet value of a base64 digit (`none` for characters outside the
alphabet). -/
def sextetVal (c : Char) : Option Nat :=
  charIndex base64Alphabet.toList c

/-- Standard base64 encoding of a byte list (RFC 4648, with `=` padding),
as performed by Node's `Buffer.prototype.toString("base64")`: bytes are
consumed three at a time, `a` contributing its high six bits, the
boundary sextets combining the adjacent bytes, and a final group of one or
two bytes padded with `==` or `=`. -/
def b64EncodeList : List Nat → List Char
  | [] => []
  | [a] => [sextetChar (a / 4), sextetChar (a % 4 * 16), '=', '=']
  | [a, b] => [sextetChar (a / 4), sextetChar (a % 4 * 16 + b / 16),
      sextetChar (b % 16 * 4), '=']
  | a :: b :: c :: rest =>
      sextetChar (a / 4) :: sextetChar (a % 4 * 16 + b / 16)
        :: sextetChar (b % 16 * 4 + c / 64) :: sextetChar (c % 64)
        :: b64EncodeList rest

/-- Base64 encoding of a byte list as a string. -/
def base64Encode (bytes : List Nat) : String :=
  String.mk (b64EncodeList bytes)

/-- A standard strict base64 reader (the external decoder of the spec's
round-trip test): groups of four digits produce three bytes; a trailing
`=`-padded group produces one or two bytes; anything else is rejected. -/
def b64DecodeList : List Char → Option (List Nat)
  | [] => some []
  | c1 :: c2 :: c3 :: c4 :: rest =>
      match sextetVal c1, sextetVal c2 with
      | some v1, some v2 =>
          if c3 = '=' then
            if c4 = '=' && rest.isEmpty then some [v1 * 4 + v2 / 16]
            else Option.none
          else
            match sextetVal c3 with
            | some v3 =>
                if c4 = '=' then
                  if rest.isEmpty then
                    some [v1 * 4 + v2 / 16, v2 % 16 * 16 + v3 / 4]
                  else Option.none
                else
                  match sextetVal c4 with
                  | some v4 =>
                      (b64DecodeList rest).map
                        (fun tl => (v1 * 4 + v2 / 16) :: (v2 % 16 * 16 + v3 / 4)
                          :: (v3 % 4 * 64 + v4) :: tl)
                  | Option.none => Option.none
            | Option.none => Option.none
      | _, _ => Option.none
  | _ => Option.none

/-- Base64 decoding of a string (the external standard reader). -/
def base64Decode (s : String) : Option (List Nat) :=
  b64DecodeList s.toList

/-- The four bytes of a 32-bit word in little-endian order, as laid out by
a `Float32Array` buffer on a little-endian host (the platform byte order
the spec flags as part of the external contract). -/
def leBytes32 (w : Nat) : List Nat :=
  [w % 256, w / 256 % 256, w / 65536 % 256, w / 16777216 % 256]

/-- `float32ToBase64` from `embeddings.ts` lines 108–112
(`Buffer.from(new Float32Array(vec).buffer).toString("base64")`).
The `new Float32Array(vec)` cast from JS doubles to IEEE-754 single
precision is platform floating point; we model each vector element by the
32-bit pattern of its float32 value (a `Nat` below `2^32`), and the buffer
view by the little-endian byte serialization of the patterns in index
order. -/
def float32ToBase64 (vec : List Nat) : String :=
  base64Encode ((vec.map leBytes32).flatten)

/-- Regroup a byte list four at a time into little-endian 32-bit words
(the external standard float32 reader of the round-trip test, at the
bit-pattern level). -/
def bytesToWords32 : List Nat → List Nat
  | b0 :: b1 :: b2 :: b3 :: rest =>
      (b0 + b1 * 256 + b2 * 65536 + b3 * 16777216) :: bytesToWords32 rest
  | _ => []

/-! ### Helper lemmas -/

@[simp]
theorem getExtractor_modelDim (s : EmbState) :
    (getExtractor s).2.modelDim = s.modelDim := by
  unfold getExtractor
  cases h : s.extractorPromise <;> rfl

@[simp]
theorem getExtractor_inferLog (s : EmbState) :
    (getExtractor s).2.inferLog = s.inferLog := by
  unfold getExtractor
  cases h : s.extractorPromise <;> rfl

theorem jsSlice_length (l : List Int) (a b : Nat) :
    (jsSlice l a b).length = min b l.length - a := by
  simp [jsSlice]

/-- Success-path characterization of `embedBatch`: with a non-empty batch,
a successfully loaded extractor and a normalizable inference output, the
call returns the normalized rows and the state after the extractor fetch,
with the prefixed batch appended to the inference log and the dimension
updated. -/
theorem embedBatch_success (lo : Nat → Bool) (infer : List String → RawOutput)
    (s : EmbState) (texts : List String) (mode : Mode) (instr : Instruction)
    (rows : List (List Int)) (dim' : Option Nat)
    (hne : texts ≠ [])
    (hlo : lo (getExtractor s).1 = true)
    (hTM : toMatrix (infer (withPrefix texts mode instr)) s.modelDim =
      .ok (rows, dim')) :
    embedBatch lo infer s texts mode instr =
      (.ok rows,
        { (getExtractor s).2 with
            inferLog := s.inferLog ++ [withPrefix texts mode instr]
            modelDim := dim' }) := by
  unfold embedBatch
  rw [if_neg (by simpa using hne)]
  simp only [hlo, if_true, getExtractor_modelDim, getExtractor_inferLog, hTM]

/-- With a non-empty batch and a successfully loaded extractor, `embedBatch`
performs exactly one inference call, with the prefixed batch as argument,
whatever the shape of the inference output. -/
theorem embedBatch_inferLog (lo : Nat → Bool) (infer : List String → RawOutput)
    (s : EmbState) (texts : List String) (mode : Mode) (instr : Instruction)
    (hne : texts ≠ [])
    (hlo : lo (getExtractor s).1 = true) :
    (embedBatch lo infer s texts mode instr).2.inferLog =
      s.inferLog ++ [withPrefix texts mode instr] := by
  unfold embedBatch
  rw [if_neg (by simpa using hne)]
  simp only [hlo, if_true, getExtractor_modelDim, getExtractor_inferLog]
  cases hm : toMatrix (infer (withPrefix texts mode instr)) s.modelDim with
  | ok v => obtain ⟨rows, dim'⟩ := v; simp
  | error e => simp

/-- Failure-path characterization: a rejected load promise propagates as
`InitializationFailure` and no inference is performed. -/
theorem embedBatch_loadFail (lo : Nat → Bool) (infer : List String → RawOutput)
    (s : EmbState) (texts : List String) (mode : Mode) (instr : Instruction)
    (hne : texts ≠ [])
    (hlo : lo (getExtractor s).1 = false) :
    embedBatch lo infer s texts mode instr =
      (.error "InitializationFailure", (getExtractor s).2) := by
  unfold embedBatch
  rw [if_neg (by simpa using hne)]
  simp [hlo]

theorem sfInv_initState : SFInv initState := by
  refine ⟨by simp [initState], by simp [initState], fun _ => rfl, fun q hq => ?_⟩
  simp [initState] at hq

/-- Equation lemma: `getExtractor` on a state with no installed promise
installs a fresh one. -/
theorem getExtractor_none (s : EmbState)
    (h : s.extractorPromise = Option.none) :
    getExtractor s =
      (s.loadCount,
        { s with
          extractorPromise := some s.loadCount
          loadCount := s.loadCount + 1
          promiseLog := s.promiseLog ++ [s.loadCount] }) := by
  unfold getExtractor
  rw [h]

/-- Equation lemma: `getExtractor` on a state with an installed promise
returns it unchanged (except for the instrumentation log). -/
theorem getExtractor_some (s : EmbState) (p : Nat)
    (h : s.extractorPromise = some p) :
    getExtractor s = (p, { s with promiseLog := s.promiseLog ++ [p] }) := by
  unfold getExtractor
  rw [h]

/-- `getExtractor` preserves the single-flight invariant and, on any state
satisfying it, hands out promise `0`. -/
theorem sfInv_getExtractor (s : EmbState) (h : SFInv s) :
    SFInv (getExtractor s).2 ∧ (getExtractor s).1 = 0 := by
  obtain ⟨h1, h2, h3, h4⟩ := h
  cases hp : s.extractorPromise with
  | none =>
      have hlc : s.loadCount = 0 := h3 hp
      rw [getExtractor_none s hp]
      refine ⟨⟨by simp; omega, ?_, by intro hcon; simp at hcon, ?_⟩,
        by simpa using hlc⟩
      · intro p hp'
        simp only [List.mem_append, List.mem_singleton] at hp'
        rcases hp' with hp' | hp'
        · exact h2 p hp'
        · omega
      · intro q hq
        simp at hq
        refine ⟨by omega, by simp; omega⟩
  | some q =>
      obtain ⟨hq0, hlc⟩ := h4 q hp
      subst hq0
      rw [getExtractor_some s 0 hp]
      refine ⟨⟨by simpa using h1, ?_, by intro hcon; simp [hp] at hcon, ?_⟩, rfl⟩
      · intro p hp'
        simp only [List.mem_append, List.mem_singleton] at hp'
        rcases hp' with hp' | hp'
        · exact h2 p hp'
        · exact hp'
      · intro q' hq'
        simp [hp] at hq'
        refine ⟨by omega, by simp; omega⟩

/-- `embedBatch` preserves the single-flight invariant. -/
theorem sfInv_embedBatch (lo : Nat → Bool) (infer : List String → RawOutput)
    (s : EmbState) (texts : List String) (mode : Mode) (instr : Instruction)
    (h : SFInv s) :
    SFInv (embedBatch lo infer s texts mode instr).2 := by
  have hge := (sfInv_getExtractor s h).1
  unfold embedBatch
  by_cases he : texts.isEmpty = true
  · simpa [he] using h
  · rw [if_neg he]
    by_cases hlo : lo (getExtractor s).1 = true
    · simp only [hlo, if_true]
      cases hm : toMatrix (infer (withPrefix texts mode instr))
          { (getExtractor s).2 with
            inferLog := (getExtractor s).2.inferLog ++
              [withPrefix texts mode instr] }.modelDim with
      | ok v => obtain ⟨rows, dim'⟩ := v; exact hge
      | error e => exact hge
    · rw [if_neg hlo]
      exact hge

/-- `getModelInfo` preserves the single-flight invariant. -/
theorem sfInv_getModelInfo (lo : Nat → Bool) (infer : List String → RawOutput)
    (s : EmbState) (h : SFInv s) :
    SFInv (getModelInfo lo infer s).2 := by
  unfold getModelInfo
  cases hd : s.modelDim with
  | some d => exact h
  | none =>
      have hpres := sfInv_embedBatch lo infer s ["warmup"] .passage .e5 h
      cases hm : embedBatch lo infer s ["warmup"] Mode.passage Instruction.e5 with
      | mk r s1 =>
          rw [hm] at hpres
          cases r with
          | ok rows => exact hpres
          | error e => exact hpres

/-- Every operation step preserves the single-flight invariant. -/
theorem sfInv_stepOp (lo : Nat → Bool) (infer : List String → RawOutput)
    (s : EmbState) (op : Op) (h : SFInv s) :
    SFInv (stepOp lo infer s op) := by
  cases op with
  | embed texts mode instr => exact sfInv_embedBatch lo infer s texts mode instr h
  | info => exact sfInv_getModelInfo lo infer s h

/-- Any run of operations preserves the single-flight invariant. -/
theorem sfInv_runOps (lo : Nat → Bool) (infer : List String → RawOutput)
    (ops : List Op) (s : EmbState) (h : SFInv s) :
    SFInv (runOps lo infer s ops) := by
  induction ops generalizing s with
  | nil => exact h
  | cons op rest ih => exact ih _ (sfInv_stepOp lo infer s op h)

/-! ### Claim theorems -/

/-- **C1.** For every non-empty input list `texts` of length `N` on which
`embedBatch` succeeds (the load promise resolves and the inference engine
returns the well-formed batch tensor for the `N` prefixed texts: shape
`[N, d]` over a buffer of `N * d` numbers), the returned matrix has exactly
`N` rows, row `i` is the `i`-th row-major chunk of the buffer (so rows are
index-aligned with `texts`), and all rows have the same length `d`. -/
theorem embedBatch_rows_match_texts (lo : Nat → Bool)
    (infer : List String → RawOutput) (s : EmbState) (texts : List String)
    (mode : Mode) (instr : Instruction) (d : Nat) (data : List Int)
    (hne : texts ≠ [])
    (hlo : lo (getExtractor s).1 = true)
    (hinfer : infer (withPrefix texts mode instr) =
      .tensor [texts.length, d] data)
    (hdata : data.length = texts.length * d) :
    ∃ rows, (embedBatch lo infer s texts mode instr).1 = .ok rows ∧
      rows.length = texts.length ∧
      (∀ r ∈ rows, r.length = d) ∧
      (∀ i, i < texts.length →
        rows[i]? = some (jsSlice data (i * d) ((i + 1) * d))) := by
  have hN : 1 ≤ texts.length := List.length_pos.mpr hne
  have hmax : max 1 texts.length = texts.length := Nat.max_eq_right hN
  have hTM : toMatrix (infer (withPrefix texts mode instr)) s.modelDim =
      .ok ((List.range texts.length).map
        (fun i => jsSlice data (i * d) ((i + 1) * d)), some d) := by
    rw [hinfer]
    simp [toMatrix, hmax]
  refine ⟨(List.range texts.length).map
    (fun i => jsSlice data (i * d) ((i + 1) * d)), ?_, ?_, ?_, ?_⟩
  · rw [embedBatch_success lo infer s texts mode instr _ _ hne hlo hTM]
  · simp
  · intro r hr
    obtain ⟨i, hi, rfl⟩ := List.mem_map.mp hr
    rw [List.mem_range] at hi
    rw [jsSlice_length]
    have h1 : (i + 1) * d ≤ data.length := by
      rw [hdata]
      exact Nat.mul_le_mul_right d hi
    rw [min_eq_left h1, Nat.add_mul]
    omega
  · intro i hi
    simp [List.getElem?_map, List.getElem?_range, hi]

/-- Witness for C1 at a concrete input: two texts, a `[2,3]` tensor output. -/
theorem embedBatch_rows_match_texts_witness :
    (["a", "b"] ≠ ([] : List String)) ∧
    ∃ rows,
      (embedBatch (fun _ => true)
        (fun _ => RawOutput.tensor [2, 3] [1, 2, 3, 4, 5, 6]) initState
        ["a", "b"] .query .e5).1 = .ok rows ∧
      rows.length = 2 ∧
      (∀ r ∈ rows, r.length = 3) ∧
      (∀ i, i < 2 →
        rows[i]? = some (jsSlice [1, 2, 3, 4, 5, 6] (i * 3) ((i + 1) * 3))) :=
  ⟨by simp,
    embedBatch_rows_match_texts (fun _ => true)
      (fun _ => RawOutput.tensor [2, 3] [1, 2, 3, 4, 5, 6]) initState
      ["a", "b"] .query .e5 3 [1, 2, 3, 4, 5, 6] (by simp) rfl rfl rfl⟩

/-- **C3 counterexample.** The claim states that a rank-1 shape descriptor
yields exactly one row.  On `dims = [2]`, `data = [1, 2]`, the source's
`toMatrix` computes `n = Math.max(1, dims[0]) = 2` and `d = data.length`,
producing two rows (the second empty), not one. -/
theorem toMatrix_rank1_counterexample :
    toMatrix (.tensor [2] [1, 2]) Option.none =
      .ok ([[1, 2], []], some 2) ∧
    ([[1, 2], ([] : List Int)]).length ≠ 1 :=
  ⟨rfl, by decide⟩

/-- **C3 (amended).** For a tensor output with a rank-≥1 shape descriptor
`d0 :: rest`, `toMatrix` produces `max 1 d0` rows (so `dims[0]` rows
whenever `dims[0] ≥ 1`, including for rank-1 descriptors — not 1 row); the
row width `w` is the trailing dimension when the rank is ≥ 2 and the whole
buffer length when the rank is 1; and row `i` is the contiguous row-major
slice `data[i*w .. (i+1)*w]`, clamped to the buffer bounds. -/
theorem toMatrix_tensor_shape (d0 : Nat) (rest : List Nat) (data : List Int)
    (m : Option Nat) :
    toMatrix (.tensor (d0 :: rest) data) m =
      .ok ((List.range (max 1 d0)).map (fun i =>
          jsSlice data
            (i * (if rest = [] then data.length else rest.getLastD data.length))
            ((i + 1) *
              (if rest = [] then data.length else rest.getLastD data.length))),
        some (if rest = [] then data.length else rest.getLastD data.length)) := by
  cases rest with
  | nil => simp [toMatrix]
  | cons r rs => simp [toMatrix, List.getLastD_cons]

/-- **C9 counterexample.** On the rank-1 tensor `dims = [2]`, `data = [1,2]`
the copy in `src/src/embeddings.ts` returns two rows while the copy in
`src/unnamed/part_000` returns one row: the two normalizers are not
extensionally equal (and neither raises here). -/
theorem toMatrix_copies_differ :
    toMatrix (.tensor [2] [1, 2]) Option.none = .ok ([[1, 2], []], some 2) ∧
    toMatrixAlt (.tensor [2] [1, 2]) Option.none = .ok ([[1, 2]], some 2) ∧
    ([[1, 2], []] : List (List Int)) ≠ [[1, 2]] :=
  ⟨rfl, rfl, by decide⟩

/-- **C9 (amended).** The two `toMatrix` copies agree (same matrix and same
dimension update, or both raising the unexpected-shape error) on every
non-tensor output and on tensors whose descriptor is empty or is rank-2
with a positive leading dimension; they diverge on rank-1 and rank-≥3
descriptors (and on rank-2 descriptors with a zero leading dimension). -/
theorem toMatrix_copies_agree (o : RawOutput) (m : Option Nat)
    (h : agreeDomain o = true) :
    toMatrix o m = toMatrixAlt o m := by
  cases o with
  | tensor dims data =>
      simp only [agreeDomain] at h
      cases dims with
      | nil => simp [toMatrix, toMatrixAlt]
      | cons d0 rest =>
          cases rest with
          | nil => simp at h
          | cons d1 rest2 =>
              cases rest2 with
              | nil =>
                  simp only [List.length_cons, List.length_nil] at h ⊢
                  have hd0 : 1 ≤ d0 := by
                    simpa using h
                  simp [toMatrix, toMatrixAlt, Nat.max_eq_right hd0,
                    List.getLastD_cons]
              | cons d2 rest3 => simp at h
  | floatArr data => rfl
  | arr items => rfl
  | other => rfl

/-- Witness for the amended C9 at a concrete input: a rank-2 tensor. -/
theorem toMatrix_copies_agree_witness :
    agreeDomain (.tensor [2, 3] [1, 2, 3, 4, 5, 6]) = true ∧
    toMatrix (.tensor [2, 3] [1, 2, 3, 4, 5, 6]) Option.none =
      toMatrixAlt (.tensor [2, 3] [1, 2, 3, 4, 5, 6]) Option.none :=
  ⟨rfl, toMatrix_copies_agree (.tensor [2, 3] [1, 2, 3, 4, 5, 6])
    Option.none rfl⟩

/-- **C6.** Prefixing is a pure function of `(texts, mode, instruction)`:
under `e5` every text gets the literal `"query: "` (query mode) or
`"passage: "` (passage mode) prepended, under `none` the texts pass through
unchanged; and a non-empty `embedBatch` call (with a resolved load) invokes
the inference function with exactly `withPrefix texts mode instruction`. -/
theorem withPrefix_spec (lo : Nat → Bool) (infer : List String → RawOutput)
    (s : EmbState) (texts : List String) (mode : Mode) (instr : Instruction)
    (hne : texts ≠ [])
    (hlo : lo (getExtractor s).1 = true) :
    withPrefix texts .query .e5 = texts.map (fun t => "query: " ++ t) ∧
    withPrefix texts .passage .e5 = texts.map (fun t => "passage: " ++ t) ∧
    withPrefix texts mode .none = texts ∧
    (embedBatch lo infer s texts mode instr).2.inferLog =
      s.inferLog ++ [withPrefix texts mode instr] :=
  ⟨rfl, rfl, rfl, embedBatch_inferLog lo infer s texts mode instr hne hlo⟩

/-- Witness for C6 at a concrete input. -/
theorem withPrefix_spec_witness :
    (["a", "b"] ≠ ([] : List String)) ∧
    withPrefix ["a", "b"] .query .e5 =
      (["a", "b"] : List String).map (fun t => "query: " ++ t) ∧
    withPrefix ["a", "b"] .passage .e5 =
      (["a", "b"] : List String).map (fun t => "passage: " ++ t) ∧
    withPrefix ["a", "b"] .query .none = ["a", "b"] ∧
    (embedBatch (fun _ => true) (fun _ => RawOutput.other) initState
      ["a", "b"] .query .e5).2.inferLog =
      initState.inferLog ++ [withPrefix ["a", "b"] .query .e5] :=
  ⟨by simp,
    withPrefix_spec (fun _ => true) (fun _ => RawOutput.other) initState
      ["a", "b"] .query .e5 (by simp) rfl⟩

/-- **C7.** `embedBatch` on the empty batch returns the empty matrix and
leaves the state untouched — in particular `loadCount` and `inferLog` are
unchanged (no model-load and no inference call), and the result does not
depend on the collaborators `lo` and `infer` at all. -/
theorem embedBatch_empty_no_call (lo : Nat → Bool)
    (infer : List String → RawOutput) (s : EmbState) (mode : Mode)
    (instr : Instruction) :
    embedBatch lo infer s [] mode instr = (.ok [], s) :=
  rfl

/-- **C2.** Single-flight initialization: over any sequence of interleaved
`embedBatch` and `getModelInfo` operations from the initial state — each
state mutation of the source happens in an atomic synchronous section, so
any interleaving of N concurrent callers is such a sequence — at most one
`pipeline(...)` load is ever started, and every `getExtractor` caller
receives the same promise (promise `0`, installed by the first caller). -/
theorem single_flight_load (lo : Nat → Bool) (infer : List String → RawOutput)
    (ops : List Op) :
    (runOps lo infer initState ops).loadCount ≤ 1 ∧
    ∀ p ∈ (runOps lo infer initState ops).promiseLog, p = 0 := by
  have h := sfInv_runOps lo infer ops initState sfInv_initState
  exact ⟨h.1, h.2.1⟩

/-- **C8 (code bug).** The claim (and §7 of the spec) requires a subsequent
request to retry initialization after a failed load.  The source never
clears `extractorPromise`, so the rejected promise is memoized forever.
Concretely, with a rejecting load: the first `embedBatch(["a"])` starts one
load and fails; a second `embedBatch(["a"])` fails the same way while the
load count stays `1` and the promise log shows the same promise `0` handed
out twice — no new load attempt is started, contradicting the claim. -/
theorem failed_load_not_retried :
    (embedBatch (fun _ => false) (fun _ => RawOutput.other) initState
      ["a"] .passage .e5).1 = .error "InitializationFailure" ∧
    (embedBatch (fun _ => false) (fun _ => RawOutput.other)
      (embedBatch (fun _ => false) (fun _ => RawOutput.other) initState
        ["a"] .passage .e5).2 ["a"] .passage .e5).1 =
      .error "InitializationFailure" ∧
    (embedBatch (fun _ => false) (fun _ => RawOutput.other)
      (embedBatch (fun _ => false) (fun _ => RawOutput.other) initState
        ["a"] .passage .e5).2 ["a"] .passage .e5).2.loadCount = 1 ∧
    (embedBatch (fun _ => false) (fun _ => RawOutput.other)
      (embedBatch (fun _ => false) (fun _ => RawOutput.other) initState
        ["a"] .passage .e5).2 ["a"] .passage .e5).2.promiseLog = [0, 0] :=
  ⟨rfl, rfl, rfl, rfl⟩

/-- A batch tensor `[n, d]` always normalizes to `max 1 n` row-major chunks
of width `d`, and always sets the memoized dimension to `d`. -/
theorem toMatrix_batch_tensor (n d : Nat) (data : List Int) (m : Option Nat) :
    toMatrix (.tensor [n, d] data) m =
      .ok ((List.range (max 1 n)).map
        (fun i => jsSlice data (i * d) ((i + 1) * d)), some d) := by
  simp [toMatrix]

/-- The `i`-th row-major chunk of a buffer of `n * d` entries has width
`d` for every `i < n`. -/
theorem chunk_length (data : List Int) (n d i : Nat)
    (hdata : data.length = n * d) (hi : i < n) :
    (jsSlice data (i * d) ((i + 1) * d)).length = d := by
  rw [jsSlice_length]
  have h1 : (i + 1) * d ≤ data.length := by
    rw [hdata]
    exact Nat.mul_le_mul_right d hi
  rw [min_eq_left h1, Nat.add_mul]
  omega

/-- Equation lemma: `getModelInfo` with a known dimension is a pure read. -/
theorem getModelInfo_known (lo : Nat → Bool) (infer : List String → RawOutput)
    (s : EmbState) (d : Nat) (h : s.modelDim = some d) :
    getModelInfo lo infer s = (.ok (MODEL_ID, some d), s) := by
  unfold getModelInfo
  rw [h]

/-- Equation lemma: `getModelInfo` with an unknown dimension runs the
single-text warmup and reports the dimension it left behind. -/
theorem getModelInfo_unknown (lo : Nat → Bool) (infer : List String → RawOutput)
    (s : EmbState) (h : s.modelDim = Option.none) :
    getModelInfo lo infer s =
      match embedBatch lo infer s ["warmup"] .passage .e5 with
      | (.ok _, s1) => (.ok (MODEL_ID, s1.modelDim), s1)
      | (.error e, s1) => (.error e, s1) := by
  unfold getModelInfo
  rw [h]

/-- `embedBatch` either leaves the memoized dimension unchanged or installs
exactly the dimension component computed by `toMatrix` on this call's
output. -/
theorem embedBatch_modelDim_cases (lo : Nat → Bool)
    (infer : List String → RawOutput) (s : EmbState) (texts : List String)
    (mode : Mode) (instr : Instruction) :
    (embedBatch lo infer s texts mode instr).2.modelDim = s.modelDim ∨
    ∃ rows dim',
      toMatrix (infer (withPrefix texts mode instr)) s.modelDim =
        .ok (rows, dim') ∧
      (embedBatch lo infer s texts mode instr).2.modelDim = dim' := by
  unfold embedBatch
  by_cases he : texts.isEmpty = true
  · rw [if_pos he]
    exact Or.inl rfl
  · rw [if_neg he]
    by_cases hlo : lo (getExtractor s).1 = true
    · simp only [hlo, if_true, getExtractor_modelDim, getExtractor_inferLog]
      cases hm : toMatrix (infer (withPrefix texts mode instr)) s.modelDim with
      | ok v =>
          obtain ⟨rows, dim'⟩ := v
          exact Or.inr ⟨rows, dim', rfl, rfl⟩
      | error e => exact Or.inl rfl
    · rw [if_neg hlo]
      exact Or.inl (getExtractor_modelDim s)

/-- **C4 counterexample.** The claim states that once the embedding
dimension has been set it never changes.  From a state with
`modelDim = some 3` and an installed promise, a successful `embedBatch`
whose output is a 5-element `Float32Array` silently overwrites the stored
dimension to `some 5 ≠ some 3`. -/
theorem modelDim_overwrite_counterexample :
    (embedBatch (fun _ => true) (fun _ => RawOutput.floatArr [1, 2, 3, 4, 5])
      { extractorPromise := some 0, modelDim := some 3 } ["a"] .passage
      .e5).1 = .ok [[1, 2, 3, 4, 5]] ∧
    (embedBatch (fun _ => true) (fun _ => RawOutput.floatArr [1, 2, 3, 4, 5])
      { extractorPromise := some 0, modelDim := some 3 } ["a"] .passage
      .e5).2.modelDim = some 5 ∧
    (some 5 : Option Nat) ≠ some 3 :=
  ⟨rfl, rfl, by decide⟩

/-- **C4 (amended).** After a successful `embedBatch` whose inference
output is a well-formed batch tensor `[n, d]` (`n ≥ 1`, buffer of `n * d`
numbers), the memoized dimension equals `some d`, which is the width of
every returned row; `getModelInfo` (with any collaborators) then returns
`dim = some d` as a pure read; and the dimension remains `some d` across
any subsequent `embedBatch` whose output is again a tensor of trailing
width `d`.  It is not immutable in general: a subsequent call producing a
different width silently overwrites it (see the counterexample). -/
theorem dim_matches_width (lo : Nat → Bool) (infer : List String → RawOutput)
    (s : EmbState) (texts : List String) (mode : Mode) (instr : Instruction)
    (n d : Nat) (data : List Int)
    (hne : texts ≠ [])
    (hlo : lo (getExtractor s).1 = true)
    (hinfer : infer (withPrefix texts mode instr) = .tensor [n, d] data)
    (hn : 1 ≤ n)
    (hdata : data.length = n * d) :
    ∃ rows, (embedBatch lo infer s texts mode instr).1 = .ok rows ∧
      rows ≠ [] ∧
      (∀ r ∈ rows, r.length = d) ∧
      (embedBatch lo infer s texts mode instr).2.modelDim = some d ∧
      (∀ lo2 infer2,
        getModelInfo lo2 infer2 (embedBatch lo infer s texts mode instr).2 =
          (.ok (MODEL_ID, some d),
            (embedBatch lo infer s texts mode instr).2)) ∧
      (∀ lo2 (infer2 : List String → RawOutput) texts2 mode2 instr2 n2
          (data2 : List Int),
        infer2 (withPrefix texts2 mode2 instr2) = .tensor [n2, d] data2 →
        (embedBatch lo2 infer2 (embedBatch lo infer s texts mode instr).2
          texts2 mode2 instr2).2.modelDim = some d) := by
  have hTM0 := toMatrix_batch_tensor n d data s.modelDim
  rw [Nat.max_eq_right hn] at hTM0
  have hTM : toMatrix (infer (withPrefix texts mode instr)) s.modelDim =
      .ok ((List.range n).map
        (fun i => jsSlice data (i * d) ((i + 1) * d)), some d) := by
    rw [hinfer]
    exact hTM0
  have hEB := embedBatch_success lo infer s texts mode instr _ _ hne hlo hTM
  have hdim : (embedBatch lo infer s texts mode instr).2.modelDim = some d := by
    rw [hEB]
  refine ⟨(List.range n).map (fun i => jsSlice data (i * d) ((i + 1) * d)),
    by rw [hEB], ?_, ?_, hdim, ?_, ?_⟩
  · simp
    omega
  · intro r hr
    obtain ⟨i, hi, rfl⟩ := List.mem_map.mp hr
    rw [List.mem_range] at hi
    exact chunk_length data n d i hdata hi
  · intro lo2 infer2
    exact getModelInfo_known lo2 infer2 _ d hdim
  · intro lo2 infer2 texts2 mode2 instr2 n2 data2 hinfer2
    rcases embedBatch_modelDim_cases lo2 infer2
        (embedBatch lo infer s texts mode instr).2 texts2 mode2 instr2 with
      hc | ⟨rows2, dim2, hTM2, hd2⟩
    · rw [hc, hdim]
    · rw [hinfer2, toMatrix_batch_tensor] at hTM2
      obtain ⟨-, hdim2⟩ := Prod.mk.injEq .. ▸ (Except.ok.injEq _ _ ▸ hTM2)
      rw [hd2]
      exact hdim2.symm ▸ rfl

/-- Witness for the amended C4 at a concrete input: one text, a `[1, 2]`
tensor output of width `2`. -/
theorem dim_matches_width_witness :
    ∃ rows,
      (embedBatch (fun _ => true) (fun _ => RawOutput.tensor [1, 2] [7, 8])
        initState ["x"] .passage .e5).1 = .ok rows ∧
      rows ≠ [] ∧
      (∀ r ∈ rows, r.length = 2) ∧
      (embedBatch (fun _ => true) (fun _ => RawOutput.tensor [1, 2] [7, 8])
        initState ["x"] .passage .e5).2.modelDim = some 2 ∧
      (∀ lo2 infer2,
        getModelInfo lo2 infer2
            (embedBatch (fun _ => true)
              (fun _ => RawOutput.tensor [1, 2] [7, 8]) initState ["x"]
              .passage .e5).2 =
          (.ok (MODEL_ID, some 2),
            (embedBatch (fun _ => true)
              (fun _ => RawOutput.tensor [1, 2] [7, 8]) initState ["x"]
              .passage .e5).2)) ∧
      (∀ lo2 (infer2 : List String → RawOutput) texts2 mode2 instr2 n2
          (data2 : List Int),
        infer2 (withPrefix texts2 mode2 instr2) = .tensor [n2, 2] data2 →
        (embedBatch lo2 infer2
          (embedBatch (fun _ => true)
            (fun _ => RawOutput.tensor [1, 2] [7, 8]) initState ["x"]
            .passage .e5).2 texts2 mode2 instr2).2.modelDim = some 2) :=
  dim_matches_width (fun _ => true) (fun _ => RawOutput.tensor [1, 2] [7, 8])
    initState ["x"] .passage .e5 1 2 [7, 8] (by simp) rfl rfl
    (by decide) rfl

/-- Every raw output in `producesDim` normalizes successfully and resolves
the dimension to a concrete value. -/
theorem toMatrix_producesDim (o : RawOutput) (m : Option Nat)
    (h : producesDim o = true) :
    ∃ rows dv, toMatrix o m = .ok (rows, some dv) := by
  cases o with
  | tensor dims data => exact ⟨_, _, rfl⟩
  | floatArr data => exact ⟨_, _, rfl⟩
  | arr items =>
      cases items with
      | nil => simp [producesDim] at h
      | cons it its => exact ⟨_, _, rfl⟩
  | other => simp [producesDim] at h

/-- **C5 counterexample.** The claim states that whenever `getModelInfo`
returns successfully, the returned `dim` is non-null.  With the warmup
inference returning an empty array-of-vectors output (a success of the
normalizer, shape 3 of §4.1 with zero items), `getModelInfo` returns
successfully with `dim = null` even though the warmup call was made. -/
theorem getModelInfo_null_dim_counterexample :
    (getModelInfo (fun _ => true) (fun _ => RawOutput.arr [])
      initState).1 = .ok (MODEL_ID, Option.none) ∧
    (getModelInfo (fun _ => true) (fun _ => RawOutput.arr [])
      initState).2.inferLog = [["passage: warmup"]] :=
  ⟨rfl, rfl⟩

/-- **C5 (amended).** When the dimension is still unknown (and the load
promise resolves), `getModelInfo` performs exactly one single-text warmup
inference, with argument `["passage: warmup"]`, before returning; and the
returned `dim` is a non-null integer whenever the warmup output is a
tensor, a single buffer, or a non-empty array of vectors.  `dim` can stay
null on a *successful* return when the warmup output is an empty
array-of-vectors (see the counterexample), in addition to the error path
where the warmup raises. -/
theorem getModelInfo_warmup (lo : Nat → Bool) (infer : List String → RawOutput)
    (s : EmbState)
    (hdim : s.modelDim = Option.none)
    (hlo : lo (getExtractor s).1 = true) :
    (getModelInfo lo infer s).2.inferLog =
      s.inferLog ++ [["passage: warmup"]] ∧
    (producesDim (infer ["passage: warmup"]) = true →
      ∃ dv, (getModelInfo lo infer s).1 = .ok (MODEL_ID, some dv)) := by
  rw [getModelInfo_unknown lo infer s hdim]
  have hlog := embedBatch_inferLog lo infer s ["warmup"] .passage .e5
    (by simp) hlo
  constructor
  · cases hm : embedBatch lo infer s ["warmup"] Mode.passage Instruction.e5 with
    | mk r s1 =>
        rw [hm] at hlog
        cases r with
        | ok rows => exact hlog
        | error e => exact hlog
  · intro hPD
    obtain ⟨rows, dv, hTM⟩ :=
      toMatrix_producesDim (infer ["passage: warmup"]) s.modelDim hPD
    have hEB := embedBatch_success lo infer s ["warmup"] .passage .e5 rows
      (some dv) (by simp) hlo hTM
    rw [hEB]
    exact ⟨dv, rfl⟩

/-- Witness for the amended C5 at a concrete input: warmup output is a
3-element `Float32Array`. -/
theorem getModelInfo_warmup_witness :
    (getModelInfo (fun _ => true) (fun _ => RawOutput.floatArr [1, 2, 3])
      initState).2.inferLog = initState.inferLog ++ [["passage: warmup"]] ∧
    (producesDim ((fun _ => RawOutput.floatArr [1, 2, 3])
        (["passage: warmup"] : List String)) = true →
      ∃ dv,
        (getModelInfo (fun _ => true)
          (fun _ => RawOutput.floatArr [1, 2, 3]) initState).1 =
          .ok (MODEL_ID, some dv)) :=
  getModelInfo_warmup (fun _ => true) (fun _ => RawOutput.floatArr [1, 2, 3])
    initState rfl rfl

set_option maxRecDepth 2000

/-- Decoding a base64 digit produced by encoding recovers the sextet. -/
theorem sextetVal_sextetChar : ∀ n, n < 64 →
    sextetVal (sextetChar n) = some n := by
  decide

/-- Base64 digits are never the padding character. -/
theorem sextetChar_ne_pad : ∀ n, n < 64 → sextetChar n ≠ '=' := by
  decide

/-- The standard base64 reader inverts the encoder on every byte list. -/
theorem b64_roundtrip (bytes : List Nat) (h : ∀ b ∈ bytes, b < 256) :
    b64DecodeList (b64EncodeList bytes) = some bytes := by
  induction bytes using b64EncodeList.induct with
  | case1 => rfl
  | case2 a =>
      have ha : a < 256 := h a (by simp)
      have h1 : sextetVal (sextetChar (a / 4)) = some (a / 4) :=
        sextetVal_sextetChar _ (by omega)
      have h2 : sextetVal (sextetChar (a % 4 * 16)) = some (a % 4 * 16) :=
        sextetVal_sextetChar _ (by omega)
      simp only [b64EncodeList, b64DecodeList, h1, h2]
      simp
      omega
  | case3 a b =>
      have ha : a < 256 := h a (by simp)
      have hb : b < 256 := h b (by simp)
      have h1 : sextetVal (sextetChar (a / 4)) = some (a / 4) :=
        sextetVal_sextetChar _ (by omega)
      have h2 : sextetVal (sextetChar (a % 4 * 16 + b / 16)) =
          some (a % 4 * 16 + b / 16) :=
        sextetVal_sextetChar _ (by omega)
      have h3 : sextetVal (sextetChar (b % 16 * 4)) = some (b % 16 * 4) :=
        sextetVal_sextetChar _ (by omega)
      have hne3 : sextetChar (b % 16 * 4) ≠ '=' :=
        sextetChar_ne_pad _ (by omega)
      simp only [b64EncodeList, b64DecodeList, h1, h2, h3]
      simp [hne3]
      constructor <;> omega
  | case4 a b c rest ih =>
      have ha : a < 256 := h a (by simp)
      have hb : b < 256 := h b (by simp)
      have hc : c < 256 := h c (by simp)
      have ih' := ih (fun x hx => h x (by simp [hx]))
      have h1 : sextetVal (sextetChar (a / 4)) = some (a / 4) :=
        sextetVal_sextetChar _ (by omega)
      have h2 : sextetVal (sextetChar (a % 4 * 16 + b / 16)) =
          some (a % 4 * 16 + b / 16) :=
        sextetVal_sextetChar _ (by omega)
      have h3 : sextetVal (sextetChar (b % 16 * 4 + c / 64)) =
          some (b % 16 * 4 + c / 64) :=
        sextetVal_sextetChar _ (by omega)
      have h4 : sextetVal (sextetChar (c % 64)) = some (c % 64) :=
        sextetVal_sextetChar _ (by omega)
      have hne3 : sextetChar (b % 16 * 4 + c / 64) ≠ '=' :=
        sextetChar_ne_pad _ (by omega)
      have hne4 : sextetChar (c % 64) ≠ '=' :=
        sextetChar_ne_pad _ (by omega)
      simp only [b64EncodeList, b64DecodeList, h1, h2, h3, h4]
      simp [hne3, hne4, ih']
      refine ⟨by omega, by omega, by omega⟩

/-- Every byte of the little-endian serialization is below 256. -/
theorem leBytes32_lt (vec : List Nat) :
    ∀ b ∈ (vec.map leBytes32).flatten, b < 256 := by
  intro b hb
  rw [List.mem_flatten] at hb
  obtain ⟨l, hl, hbl⟩ := hb
  rw [List.mem_map] at hl
  obtain ⟨w, -, rfl⟩ := hl
  simp only [leBytes32, List.mem_cons, List.not_mem_nil, or_false] at hbl
  rcases hbl with rfl | rfl | rfl | rfl <;> omega

/-- Regrouping the little-endian serialization four bytes at a time
recovers the original 32-bit words. -/
theorem bytesToWords32_flatten (vec : List Nat)
    (h : ∀ w ∈ vec, w < 4294967296) :
    bytesToWords32 ((vec.map leBytes32).flatten) = vec := by
  induction vec with
  | nil => rfl
  | cons w rest ih =>
      have hw : w < 4294967296 := h w (by simp)
      have ih' := ih (fun x hx => h x (by simp [hx]))
      simp only [List.map_cons, List.flatten_cons, leBytes32,
        List.cons_append, List.nil_append, bytesToWords32]
      have hnil : ([] : List Nat).append ((rest.map leBytes32).flatten) =
          (rest.map leBytes32).flatten := rfl
      rw [hnil, ih']
      congr 1
      omega

/-- **C10.** `float32ToBase64` returns the base64 encoding of the
concatenation, in index order, of the four little-endian bytes of each
element's 32-bit IEEE-754 single-precision pattern; consequently a
standard base64 reader recovers exactly that byte sequence, and regrouping
it four bytes at a time reproduces the vector's elements exactly (the
byte-level round-trip, up to the float32 cast which the bit-pattern
representation makes the identity). -/
theorem float32ToBase64_roundtrip (vec : List Nat)
    (h : ∀ w ∈ vec, w < 4294967296) :
    ∃ bytes, base64Decode (float32ToBase64 vec) = some bytes ∧
      bytesToWords32 bytes = vec ∧
      bytes = (vec.map leBytes32).flatten := by
  refine ⟨(vec.map leBytes32).flatten, ?_, bytesToWords32_flatten vec h, rfl⟩
  show b64DecodeList
    (String.mk (b64EncodeList ((vec.map leBytes32).flatten))).toList = _
  exact b64_roundtrip _ (leBytes32_lt vec)

/-- Witness for C10 at the spec's test vector `[1.0, -2.5, 0.0]`, whose
float32 bit patterns are `0x3F800000`, `0xC0200000`, `0x00000000`. -/
theorem float32ToBase64_roundtrip_witness :
    ∃ bytes,
      base64Decode (float32ToBase64 [1065353216, 3223322624, 0]) =
        some bytes ∧
      bytesToWords32 bytes = [1065353216, 3223322624, 0] ∧
      bytes = (([1065353216, 3223322624, 0] : List Nat).map
        leBytes32).flatten :=
  float32ToBase64_roundtrip [1065353216, 3223322624, 0] (by decide)
